import Mathlib

/-!
Verification of the mdp-algo path planner: a shallow embedding of the planner's
data model (directions, motions, cell states, obstacles, grid predicates) and of
the algorithms in `algorithms/algo.py` and `entities/entity.py`, together with
theorems settling the frozen claims about the natural-language specification.

Python integers are embedded as `Int` (coordinates) or `Nat` (costs, which are
non-negative throughout the source); Python dicts keyed by tuples of integers
are embedded as association lists with structural key equality, and dicts keyed
by `CellState` instances (a class defining neither `__eq__` nor `__hash__`) are
embedded with an explicit object-identity token.
-/

set_option maxRecDepth 4000

namespace MdpAlgo

/-- Cardinal directions of `tools/movement.py` (`Direction` enum: NORTH, SOUTH,
EAST, WEST, SKIP). -/
inductive Direction where
  | north
  | south
  | east
  | west
  | skip
deriving DecidableEq, Repr

/-- Motion primitives of `tools/movement.py` (`Motion` enum). -/
inductive Motion where
  | forward_left_turn
  | forward_offset_left
  | forward
  | forward_offset_right
  | forward_right_turn
  | reverse_left_turn
  | reverse_offset_right
  | reverse
  | reverse_offset_left
  | reverse_right_turn
  | capture
deriving DecidableEq, Repr

/-- Numeric enum value of each motion (`Motion` member values; drive motions are
designed so that value + opposite value = 10, CAPTURE is 1000). -/
def Motion.val : Motion → ℕ
  | .forward_left_turn => 0
  | .forward_offset_left => 1
  | .forward => 2
  | .forward_offset_right => 3
  | .forward_right_turn => 4
  | .reverse_left_turn => 10
  | .reverse_offset_right => 9
  | .reverse => 8
  | .reverse_offset_left => 7
  | .reverse_right_turn => 6
  | .capture => 1000

/-- `Motion.opposite_motion` of the source: CAPTURE maps to itself, a drive
motion with value v maps to the motion with value 10 - v. -/
def Motion.opposite_motion : Motion → Motion
  | .forward_left_turn => .reverse_left_turn
  | .forward_offset_left => .reverse_offset_right
  | .forward => .reverse
  | .forward_offset_right => .reverse_offset_left
  | .forward_right_turn => .reverse_right_turn
  | .reverse_left_turn => .forward_left_turn
  | .reverse_offset_right => .forward_offset_left
  | .reverse => .forward
  | .reverse_offset_left => .forward_offset_right
  | .reverse_right_turn => .forward_right_turn
  | .capture => .capture

/-- Constants of `tools/consts.py`. -/
def EXPANDED_CELL : ℤ := 1

def SCREENSHOT_COST : ℕ := 100

def TOO_CLOSE_COST : ℕ := 50

def TURN_FACTOR : ℕ := 6

def HALF_TURN_FACTOR : ℕ := 10

def REVERSE_FACTOR : ℕ := 3

def SAFE_COST : ℕ := 1000

def ITERATIONS : ℕ := 2000

/-- A `CellState` as constructed by `Obstacle.get_view_state` and used by the
planner: position, robot facing, the obstacle id that was passed in the
`screenshot_id` argument slot, and the viewpoint quality penalty. -/
structure CellState where
  x : ℤ
  y : ℤ
  direction : Direction
  screenshot_id : ℤ
  penalty : ℕ
deriving DecidableEq, Repr

/-- `CellState.is_eq`: compare position and direction only. -/
def CellState.is_eq (s : CellState) (x y : ℤ) (d : Direction) : Bool :=
  decide (s.x = x) && decide (s.y = y) && decide (s.direction = d)

/-- An obstacle of `entities/entity.py`. -/
structure Obstacle where
  x : ℤ
  y : ℤ
  direction : Direction
  obstacle_id : ℤ
deriving DecidableEq, Repr

/-- A grid instance (`Grid.__init__` stores `size_x`, `size_y` and the obstacle
list on the instance). -/
structure Grid where
  size_x : ℤ
  size_y : ℤ
  obstacles : List Obstacle

/-- `Grid.is_valid_coord`: interior coordinates, one-cell border excluded. -/
def Grid.is_valid_coord (g : Grid) (x y : ℤ) : Bool :=
  if x < 1 ∨ x ≥ g.size_x - 1 ∨ y < 1 ∨ y ≥ g.size_y - 1 then false else true

/-- `Grid.reachable`: the destination of a straight move must be interior and,
for every obstacle, outside Manhattan distance 2 and at Chebyshev distance at
least 2. -/
def Grid.reachable (g : Grid) (x y : ℤ) : Bool :=
  if g.is_valid_coord x y = false then false
  else
    g.obstacles.all fun ob =>
      !(decide (|ob.x - x| + |ob.y - y| ≤ 2)) && !(decide (max |ob.x - x| |ob.y - y| < 2))

/-- `Grid.is_valid_grid_position` is a `@classmethod` reading `cls.size_x` and
`cls.size_y`, the class attributes, which are both 20; a `Grid` instance
constructed with other dimensions sets only instance attributes and leaves the
class attributes unchanged, so this check is always against the default 20x20
square. -/
def Grid.is_valid_grid_position (x y : ℤ) : Bool :=
  decide (0 ≤ x ∧ x < 20) && decide (0 ≤ y ∧ y < 20)

/-- The ordered (position, penalty) slot list of `Obstacle.get_view_state`,
before the grid-position filter (the `positions` and `costs` lists of each
direction branch, with offset = 2 * EXPANDED_CELL). -/
def Obstacle.view_slots (o : Obstacle) : List ((ℤ × ℤ) × ℕ) :=
  let offset : ℤ := 2 * EXPANDED_CELL
  match o.direction with
  | .north =>
      [((o.x, o.y + offset), TOO_CLOSE_COST),
       ((o.x - 1, o.y + 2 + offset), SCREENSHOT_COST),
       ((o.x + 1, o.y + 2 + offset), SCREENSHOT_COST),
       ((o.x, o.y + 1 + offset), TOO_CLOSE_COST / 2),
       ((o.x, o.y + 2 + offset), 0)]
  | .south =>
      [((o.x, o.y - offset), TOO_CLOSE_COST),
       ((o.x + 1, o.y - 2 - offset), SCREENSHOT_COST),
       ((o.x - 1, o.y - 2 - offset), SCREENSHOT_COST),
       ((o.x, o.y - 1 - offset), TOO_CLOSE_COST / 2),
       ((o.x, o.y - 2 - offset), 0)]
  | .east =>
      [((o.x + offset, o.y), TOO_CLOSE_COST),
       ((o.x + 2 + offset, o.y + 1), SCREENSHOT_COST),
       ((o.x + 2 + offset, o.y - 1), SCREENSHOT_COST),
       ((o.x + 1 + offset, o.y), TOO_CLOSE_COST / 2),
       ((o.x + 2 + offset, o.y), 0)]
  | .west =>
      [((o.x - offset, o.y), TOO_CLOSE_COST),
       ((o.x - 2 - offset, o.y + 1), SCREENSHOT_COST),
       ((o.x - 2 - offset, o.y - 1), SCREENSHOT_COST),
       ((o.x - 1 - offset, o.y), TOO_CLOSE_COST / 2),
       ((o.x - 2 - offset, o.y), 0)]
  | .skip => []

/-- `Obstacle.get_view_state`: each direction branch keeps the slots that pass
`Grid.is_valid_grid_position` (the class-level 20x20 check) and builds a
`CellState` facing the direction opposite to the obstacle's facing, carrying the
obstacle id and the slot penalty. -/
def Obstacle.get_view_state (o : Obstacle) : List CellState :=
  match o.direction with
  | .north =>
      (o.view_slots.filter fun pc => Grid.is_valid_grid_position pc.1.1 pc.1.2).map
        fun pc => ⟨pc.1.1, pc.1.2, .south, o.obstacle_id, pc.2⟩
  | .south =>
      (o.view_slots.filter fun pc => Grid.is_valid_grid_position pc.1.1 pc.1.2).map
        fun pc => ⟨pc.1.1, pc.1.2, .north, o.obstacle_id, pc.2⟩
  | .east =>
      (o.view_slots.filter fun pc => Grid.is_valid_grid_position pc.1.1 pc.1.2).map
        fun pc => ⟨pc.1.1, pc.1.2, .west, o.obstacle_id, pc.2⟩
  | .west =>
      (o.view_slots.filter fun pc => Grid.is_valid_grid_position pc.1.1 pc.1.2).map
        fun pc => ⟨pc.1.1, pc.1.2, .east, o.obstacle_id, pc.2⟩
  | .skip => []

/-- `Grid.get_view_obstacle_positions`: obstacles facing SKIP are skipped
entirely (the loop uses continue, appending nothing); for the others, the view
states that are `reachable` are kept, preserving order. -/
def Grid.get_view_obstacle_positions (g : Grid) : List (List CellState) :=
  (g.obstacles.filter fun o => o.direction ≠ .skip).map
    fun o => o.get_view_state.filter fun v => g.reachable v.x v.y

/-- Unit vector pointing "ahead" of an obstacle, i.e. along its facing. -/
def ahead_unit : Direction → ℤ × ℤ
  | .north => (0, 1)
  | .south => (0, -1)
  | .east => (1, 0)
  | .west => (-1, 0)
  | .skip => (0, 0)

/-- Positive unit vector of the grid axis perpendicular to a facing (x for
north/south facings, y for east/west facings). -/
def lateral_unit : Direction → ℤ × ℤ
  | .north | .south => (1, 0)
  | _ => (0, 1)

/-- The facing opposite to a direction (SKIP has no opposite). -/
def opposite_facing : Direction → Direction
  | .north => .south
  | .south => .north
  | .east => .west
  | .west => .east
  | .skip => .skip

/-- Modelled from the spec: the slot table of the viewing-pose generator as the
claim words it, substituting the obstacle's facing uniformly - slot 0 directly
ahead by 2 with penalty TOO_CLOSE_COST, slot 1 lateral +1 and ahead by 4 with
penalty SCREENSHOT_COST, slot 2 lateral -1 and ahead by 4 with penalty
SCREENSHOT_COST, slot 3 directly ahead by 3 with penalty TOO_CLOSE_COST / 2,
slot 4 directly ahead by 4 with penalty 0; "lateral +1" is +1 along the
positive perpendicular grid axis. To be compared with the source-derived
`Obstacle.view_slots`. -/
def spec_view_slots (f : Direction) (x y : ℤ) : List ((ℤ × ℤ) × ℕ) :=
  let a := ahead_unit f
  let p := lateral_unit f
  [((x + 2 * a.1, y + 2 * a.2), TOO_CLOSE_COST),
   ((x + 4 * a.1 + p.1, y + 4 * a.2 + p.2), SCREENSHOT_COST),
   ((x + 4 * a.1 - p.1, y + 4 * a.2 - p.2), SCREENSHOT_COST),
   ((x + 3 * a.1, y + 3 * a.2), TOO_CLOSE_COST / 2),
   ((x + 4 * a.1, y + 4 * a.2), 0)]

/-- The slot table as the source actually computes it: identical to
`spec_view_slots` except that for a NORTH-facing obstacle the lateral signs of
slots 1 and 2 are flipped (slot 1 is lateral -1 and slot 2 is lateral +1). -/
def view_slots_amended (f : Direction) (x y : ℤ) : List ((ℤ × ℤ) × ℕ) :=
  let a := ahead_unit f
  let p := lateral_unit f
  let s : ℤ := if f = Direction.north then -1 else 1
  [((x + 2 * a.1, y + 2 * a.2), TOO_CLOSE_COST),
   ((x + 4 * a.1 + s * p.1, y + 4 * a.2 + s * p.2), SCREENSHOT_COST),
   ((x + 4 * a.1 - s * p.1, y + 4 * a.2 - s * p.2), SCREENSHOT_COST),
   ((x + 3 * a.1, y + 3 * a.2), TOO_CLOSE_COST / 2),
   ((x + 4 * a.1, y + 4 * a.2), 0)]

/-- A `CellState` instance as a Python object: the class defines neither
`__eq__` nor `__hash__` (only the subclass `Obstacle` overrides `__eq__`), so
CPython dict lookup compares instances by object identity; the embedding
carries that identity explicitly as the token `ref`. -/
structure CellStateObj where
  ref : ℕ
  x : ℤ
  y : ℤ
  direction : Direction
  screenshot_id : List String
  penalty : ℕ
deriving DecidableEq, Repr

/-- Dict key equality for two `CellState` instances: default object
identity. -/
def cellstate_key_eq (a b : CellStateObj) : Bool :=
  a.ref == b.ref

/-- Dict key equality for a pair of `CellState` instances, as used by the keys
of `path_table` and `cost_table` (a tuple of two instances compares
componentwise, each component by identity). -/
def pair_key_eq (k k' : CellStateObj × CellStateObj) : Bool :=
  cellstate_key_eq k.1 k'.1 && cellstate_key_eq k.2 k'.2

/-- Lookup in `cost_table` (a dict keyed by pairs of `CellState` instances). -/
def cost_table_lookup (t : List ((CellStateObj × CellStateObj) × ℕ))
    (k : CellStateObj × CellStateObj) : Option ℕ :=
  (t.find? fun e => pair_key_eq e.1 k).map (·.2)

/-- Store into `cost_table`; the newest binding shadows older ones, as dict
assignment does. -/
def cost_table_insert (t : List ((CellStateObj × CellStateObj) × ℕ))
    (k : CellStateObj × CellStateObj) (v : ℕ) : List ((CellStateObj × CellStateObj) × ℕ) :=
  (k, v) :: t

/-- `Direction.rotation_cost` of the source: 0 when the direction is kept,
1 for a 90 degree change, and a raised `ValueError` (here `none`) for a
180 degree change or a non-direction. -/
def Direction.rotation_cost : Direction → Direction → Option ℕ
  | .north, .east | .north, .west => some 1
  | .north, .north => some 0
  | .south, .east | .south, .west => some 1
  | .south, .south => some 0
  | .east, .north | .east, .south => some 1
  | .east, .east => some 0
  | .west, .north | .west, .south => some 1
  | .west, .west => some 0
  | _, _ => none

/-- `Motion.reverse_cost` of the source: 1 for the five reverse drive motions,
0 for the forward ones, and a raised `ValueError` (here `none`) for CAPTURE. -/
def Motion.reverse_cost : Motion → Option ℕ
  | .reverse_offset_right | .reverse_offset_left | .reverse_left_turn
  | .reverse_right_turn | .reverse => some 1
  | .capture => none
  | _ => some 0

/-- `Motion.half_turn_cost` of the source: 1 for the four offset motions,
0 otherwise. -/
def Motion.half_turn_cost : Motion → ℕ
  | .forward_offset_left | .forward_offset_right
  | .reverse_offset_left | .reverse_offset_right => 1
  | _ => 0

/-- The composite motion cost computed in `_astar_search` for an edge from
heading d to heading nd via motion m: each factor is its weight times its cost
tag, floored to 1 when the product is 0, and the three factors are
multiplied. -/
def motion_cost (d nd : Direction) (m : Motion) : Option ℕ :=
  (Direction.rotation_cost d nd).bind fun rc =>
    m.reverse_cost.map fun rv =>
      let rotation := if TURN_FACTOR * rc = 0 then 1 else TURN_FACTOR * rc
      let rev := if REVERSE_FACTOR * rv = 0 then 1 else REVERSE_FACTOR * rv
      let half := if HALF_TURN_FACTOR * m.half_turn_cost = 0 then 1 else
        HALF_TURN_FACTOR * m.half_turn_cost
      rev * half * rotation

/-- A node of the A* search graph: the (x, y, direction) tuples used as keys of
`g_dist`, `visited` and `parent_dict` (tuples of ints compare structurally in
Python, so structural equality is faithful here). -/
abbrev AStarNode : Type := ℤ × ℤ × Direction

/-- Lookup in the `g_dist` dict. -/
def g_dist_lookup (t : List (AStarNode × ℕ)) (k : AStarNode) : Option ℕ :=
  (t.find? fun e => e.1 = k).map (·.2)

/-- Assignment into the `g_dist` dict; the newest binding shadows older
ones. -/
def g_dist_insert (t : List (AStarNode × ℕ)) (k : AStarNode) (v : ℕ) :
    List (AStarNode × ℕ) :=
  (k, v) :: t

/-- `_estimate_distance` at level 0: Manhattan distance from (x, y) to the end
state. -/
def estimate_distance (x y : ℤ) (endSt : CellState) : ℕ :=
  (x - endSt.x).natAbs + (y - endSt.y).natAbs

/-- The relaxation step of `_astar_search` for one neighbor (nx, ny, nd) of a
node with g-value `dist`, motion cost `mc` and proximity cost `safe_cost`:
movement_cost = mc + safe_cost; the screenshot cost is the end pose's penalty
when the neighbor is the end pose; the guard compares the stored g-value
against dist + movement_cost, while the stored value and the pushed heap
priority both add the screenshot cost. Returns the updated `g_dist` and the
heap entry pushed, if any. -/
def astar_relax (g_dist : List (AStarNode × ℕ)) (dist mc safe_cost : ℕ)
    (endSt : CellState) (nx ny : ℤ) (nd : Direction) :
    List (AStarNode × ℕ) × Option (ℕ × AStarNode) :=
  let movement_cost := mc + safe_cost
  let screenshot_cost := if endSt.is_eq nx ny nd then endSt.penalty else 0
  let total_cost := dist + movement_cost + screenshot_cost + estimate_distance nx ny endSt
  match g_dist_lookup g_dist (nx, ny, nd) with
  | none =>
      (g_dist_insert g_dist (nx, ny, nd) (dist + movement_cost + screenshot_cost),
       some (total_cost, (nx, ny, nd)))
  | some old =>
      if dist + movement_cost < old then
        (g_dist_insert g_dist (nx, ny, nd) (dist + movement_cost + screenshot_cost),
         some (total_cost, (nx, ny, nd)))
      else (g_dist, none)

/-- `_generate_combinations` of the source, recursing over the suffix of
view-position lists instead of an index: when all levels are assigned the
current assignment is appended to the result; otherwise, when the budget is 0
the result is returned as is; otherwise each slot index of the current level is
tried with the budget decremented (the budget is a plain parameter, so sibling
branches each receive the same decremented budget). -/
def generate_combinations {α : Type} :
    List (List α) → List ℕ → List (List ℕ) → ℕ → List (List ℕ)
  | [], current, result, _ => result ++ [current]
  | opts :: rest, current, result, num_iters =>
      if num_iters = 0 then result
      else
        (List.range opts.length).foldl
          (fun res i => generate_combinations rest (current ++ [i]) res (num_iters - 1))
          result

/-- The full Cartesian product of slot-index choices, one index per
view-position list, in the source's depth-first order. -/
def combos {α : Type} : List (List α) → List (List ℕ)
  | [] => [[]]
  | opts :: rest => (List.range opts.length).flatMap fun i => (combos rest).map fun c => i :: c

/-- `_record_path` of the source acting on the pair of memo tables: the cost is
stored under (start, end) and (end, start); the reconstructed parent-chain path
(running from end to start) is stored reversed under (start, end) and as is
under (end, start). Keys are abstract (`CellState` instances compare by
identity, which any type with decidable equality models). -/
def record_path {κ π : Type} [DecidableEq κ]
    (ct : κ × κ → Option ℕ) (pt : κ × κ → Option (List π))
    (a b : κ) (path : List π) (cost : ℕ) :
    (κ × κ → Option ℕ) × (κ × κ → Option (List π)) :=
  (fun p => if p = (b, a) then some cost else if p = (a, b) then some cost else ct p,
   fun p => if p = (b, a) then some path else if p = (a, b) then some path.reverse else pt p)

/-- The pairs of memo tables reachable from the empty tables by a sequence of
`_record_path` calls. `_record_path` is the only writer of `path_table` and
`cost_table`, and `_generate_paths` only ever invokes the search on two
distinct pose objects (pairs i < j of a duplicate-free list), hence the two
keys of a call differ. -/
inductive TablesReached {κ π : Type} [DecidableEq κ] :
    (κ × κ → Option ℕ) → (κ × κ → Option (List π)) → Prop
  | empty : TablesReached (fun _ => none) (fun _ => none)
  | step {ct pt} (a b : κ) (path : List π) (cost : ℕ) (hab : a ≠ b)
      (h : TablesReached ct pt) :
      TablesReached (record_path ct pt a b path cost).1 (record_path ct pt a b path cost).2

/-- A pose of the reconstructed optimal path as consumed by
`optimal_path_to_motion_path`: position, facing, and the list of capture tags
appended by the annotator. -/
structure PathPose where
  x : ℤ
  y : ℤ
  direction : Direction
  screenshot_id : List String
deriving DecidableEq, Repr

/-- Key of `motion_table`: the 6-tuple (x, y, d, x2, y2, d2) of two pose
triples (ints and enum members compare structurally in Python dicts). -/
abbrev MotionKey : Type := AStarNode × AStarNode

/-- Lookup in `motion_table`. -/
def motion_table_lookup (mt : List (MotionKey × Motion)) (k : MotionKey) : Option Motion :=
  (mt.find? fun e => e.1 = k).map (·.2)

/-- The (x, y, direction) triple of a pose. -/
def pose_node (u : PathPose) : AStarNode := (u.x, u.y, u.direction)

/-- The motion resolution of `optimal_path_to_motion_path` for the step from u
to v, exactly in the source's order: the reverse key (v, u) is tried first and
its motion inverted; otherwise the forward key (u, v) is used as stored. -/
def resolve_motion (mt : List (MotionKey × Motion)) (u v : PathPose) : Option Motion :=
  match motion_table_lookup mt (pose_node v, pose_node u) with
  | some m => some m.opposite_motion
  | none => motion_table_lookup mt (pose_node u, pose_node v)

/-- Modelled from the claim's wording, for comparison with `resolve_motion`:
the forward key (u, v) is used when it exists, otherwise the inverse of the
reverse key (v, u). -/
def resolve_motion_claim (mt : List (MotionKey × Motion)) (u v : PathPose) : Option Motion :=
  match motion_table_lookup mt (pose_node u, pose_node v) with
  | some m => some m
  | none => (motion_table_lookup mt (pose_node v, pose_node u)).map Motion.opposite_motion

/-- `optimal_path_to_motion_path` of the source: for each consecutive pair the
resolved motion is appended (a fatal `ValueError`, here `Except.error`, when
neither directed key exists), then one CAPTURE marker per screenshot tag of the
arrival pose is appended to the motion list while the tag itself is appended to
the parallel id list. -/
def optimal_path_to_motion_path (mt : List (MotionKey × Motion)) :
    List PathPose → Except Unit (List Motion × List String)
  | u :: v :: rest =>
      match resolve_motion mt u v with
      | none => .error ()
      | some m =>
          match optimal_path_to_motion_path mt (v :: rest) with
          | .error e => .error e
          | .ok msids =>
              .ok (m :: (List.replicate v.screenshot_id.length Motion.capture ++ msids.1),
                   v.screenshot_id ++ msids.2)
  | _ => .ok ([], [])

/-- A concrete one-edge motion table used to instantiate theorems. -/
def sample_motion_table : List (MotionKey × Motion) :=
  [(((0, 0, Direction.north), (0, 1, Direction.north)), Motion.forward)]

/-- A concrete two-pose path whose arrival pose carries one capture tag. -/
def sample_path : List PathPose :=
  [⟨0, 0, Direction.north, []⟩, ⟨0, 1, Direction.north, ["1_C"]⟩]

/-- Number of set bits of a bit string (the count of "1" characters; bits are
booleans, true standing for the character "1"). -/
def popcount (s : List Bool) : ℕ := s.count true

/-- The binary digits of a natural number, most significant first, empty for
zero (the digits of Python's bin(i) after the "0b" marker, except that bin(0)
is "0"; see `pyBin`). -/
def natBits : ℕ → List Bool
  | 0 => []
  | n + 1 => natBits ((n + 1) / 2) ++ [decide ((n + 1) % 2 = 1)]
decreasing_by
  simp_wf
  omega

/-- Python's str.zfill on bit strings: left-pad with "0" to length n. -/
def zfill (n : ℕ) (s : List Bool) : List Bool :=
  List.replicate (n - s.length) false ++ s

/-- Python's bin(i)[2:] as a bit string: the binary digits of i, with bin(0)
rendering as the single character "0". -/
def pyBin (i : ℕ) : List Bool :=
  if i = 0 then [false] else natBits i

/-- The unsorted string list of `_get_visit_options`: bin(i)[2:].zfill(max_len)
for i in range(2 ** n), where max_len counts the "1" characters of
bin(2 ** n - 1). -/
def visit_strings (n : ℕ) : List (List Bool) :=
  (List.range (2 ^ n)).map fun i => zfill ((pyBin (2 ^ n - 1)).count true) (pyBin i)

/-- `_get_visit_options`: the strings sorted by descending popcount
(Python's stable list.sort with key popcount and reverse=True, embedded as a
stable merge sort with the corresponding total preorder). -/
def get_visit_options (n : ℕ) : List (List Bool) :=
  List.mergeSort (visit_strings n) fun a b => decide (popcount b ≤ popcount a)

/-- The subset loop of `get_optimal_path` viewed through which subset first
yields a non-empty optimal path: subsets are tried in order and the loop
breaks at the first success. -/
def break_loop {β : Type} (succeeds : β → Bool) : List β → Option β
  | [] => none
  | s :: rest => if succeeds s then some s else break_loop succeeds rest

/-- The value of a bit string read most-significant-first. -/
def bitsVal (s : List Bool) : ℕ :=
  s.foldl (fun a b => 2 * a + (if b then 1 else 0)) 0

/-- Placeholder cell returned by out-of-range list indexing; the source's list
and numpy indexing is always in range, so the placeholder is never read by the
theorems below. -/
def default_cell : CellState := ⟨0, 0, Direction.north, 0, 0⟩

/-- Python list indexing `states[i]` for the visit-state list. -/
def nth_cell (states : List CellState) (i : ℕ) : CellState :=
  states.getD i default_cell

/-- The cur_view_positions of one subset: views[i] for each i with
bin_pos[i] == "1" (the zip truncates to the number of views, as the source's
range(num_views) loop does). -/
def subset_view_positions (views : List (List CellState)) (bin_pos : List Bool) :
    List (List CellState) :=
  ((bin_pos.zip views).filter fun bv => bv.1).map fun bv => bv.2

/-- The visit_states of one subset: the start state followed by the selected
candidate lists, in order. -/
def visit_states_of (start : CellState) (views : List (List CellState))
    (bin_pos : List Bool) : List CellState :=
  start :: (subset_view_positions views bin_pos).flatten

/-- The visited indices after index 0: current_idx starts at 1 and each level
appends current_idx + combination[idx] before advancing by the level's
length. -/
def visited_aux : List (List CellState) → List ℕ → ℕ → List ℕ
  | [], _, _ => []
  | _ :: _, [], _ => []
  | vp :: rest, c :: cs, cur_idx => (cur_idx + c) :: visited_aux rest cs (cur_idx + vp.length)

/-- The visited index list of one combination: [0] followed by one index per
selected obstacle. -/
def visited_of (cur : List (List CellState)) (combination : List ℕ) : List ℕ :=
  0 :: visited_aux cur combination 1

/-- The summed slot penalties of one combination
(cost += view_pos[combination[idx]].penalty). -/
def combination_penalty (cur : List (List CellState)) (combination : List ℕ) : ℕ :=
  ((cur.zip combination).map fun vc => (nth_cell vc.1 vc.2).penalty).sum

/-- The cost matrix of one combination as a function of its indices: column 0
is forced to 0 (cost_matrix[:, 0] = 0, applied after the fill); the diagonal
keeps np.zeros' 0 (the fill loops have start_idx < end_idx); every other entry
is the cost-table value of the pair (lower visited index first, as the fill
orders the key) and the 1e9 sentinel when the pair is absent. -/
def build_cost_matrix (lookup : CellState → CellState → Option ℕ)
    (states : List CellState) (visited : List ℕ) : ℕ → ℕ → ℕ :=
  fun i j =>
    if j = 0 then 0
    else if i = j then 0
    else
      (lookup (nth_cell states (visited.getD (min i j) 0))
          (nth_cell states (visited.getD (max i j) 0))).getD 1000000000

/-- Keep the cheaper of two candidate tours, the earlier one on ties. -/
def pick_min_tour : List (List ℕ × ℕ) → List ℕ × ℕ → List ℕ × ℕ
  | [], best => best
  | c :: cs, best => pick_min_tour cs (if c.2 < best.2 then c else best)

/-- Cheapest order through the remaining nodes from node i, closing back to
node 0; the fuel (instantiated with the number of remaining nodes) makes the
recursion structural. -/
def tsp_best (m : ℕ → ℕ → ℕ) : ℕ → ℕ → List ℕ → List ℕ × ℕ
  | _, i, [] => ([], m i 0)
  | 0, i, _ :: _ => ([], m i 0)
  | fuel + 1, i, j :: rest =>
      match (j :: rest).map (fun k =>
        let b := tsp_best m fuel k ((j :: rest).erase k)
        (k :: b.1, m i k + b.2)) with
      | [] => ([], m i 0)
      | c :: cs => pick_min_tour cs c

/-- Modelled from the spec: the exact TSP solver solve_tsp_dynamic_programming
of the external python_tsp library (a dependency, not part of this
repository): Held-Karp dynamic programming over the n x n cost matrix,
returning a minimum-cost tour that starts at node 0 together with its
distance, the sum of consecutive edge costs closing back to node 0. Embedded
as an exhaustive minimum over visit orders, extensionally the same minimum. -/
def solve_tsp (m : ℕ → ℕ → ℕ) (n : ℕ) : List ℕ × ℕ :=
  let rest := (List.range (n - 1)).map (· + 1)
  let b := tsp_best m rest.length 0 rest
  (0 :: b.1, b.2)

/-- The optimal-path rebuild of `get_optimal_path` as the pose-triple
sequence: visit_states[0], then for each consecutive permutation pair the
path-table chain of the pair minus its first element (the source wraps each
triple in a fresh CellState; the capture annotator then appends a tag string
to the arrival pose of each leg - a mutation of the screenshot list only,
whose UnknownObstacleId failure cannot fire for view states built from the
grid's own obstacles). -/
def reconstruct_path (path_lookup : CellState → CellState → Option (List AStarNode))
    (states : List CellState) (visited : List ℕ) (permutation : List ℕ) :
    List AStarNode :=
  (fun s => (s.x, s.y, s.direction)) (nth_cell states 0) ::
    (permutation.zip permutation.tail).flatMap fun ft =>
      ((path_lookup (nth_cell states (visited.getD ft.1 0))
          (nth_cell states (visited.getD ft.2 0))).getD []).drop 1

/-- The body of the combination loop of `get_optimal_path`: a combination
whose TSP distance plus penalty cost reaches the current minimum is skipped;
otherwise it becomes the new optimum with its reconstructed path. -/
def process_combination (lookup : CellState → CellState → Option ℕ)
    (path_lookup : CellState → CellState → Option (List AStarNode))
    (states : List CellState) (cur : List (List CellState)) (combination : List ℕ)
    (acc : List AStarNode × ℕ) : List AStarNode × ℕ :=
  let visited := visited_of cur combination
  let cost := combination_penalty cur combination
  let pd := solve_tsp (build_cost_matrix lookup states visited) visited.length
  if pd.2 + cost < acc.2 then (reconstruct_path path_lookup states visited pd.1, pd.2 + cost)
  else acc

/-- Processing of one subset of `get_optimal_path`: enumerate the slot
combinations of the selected candidate lists under the ITERATIONS budget and
fold the combination loop over them. The cost_table and path_table that
`_generate_paths` populates before the combination loop are threaded as the
lookup parameters: entries are write-once (the A* search returns early on a
memoized pair), so the completed tables are a fixed function of the run. -/
def process_subset (lookup : CellState → CellState → Option ℕ)
    (path_lookup : CellState → CellState → Option (List AStarNode))
    (start : CellState) (views : List (List CellState)) (bin_pos : List Bool)
    (acc : List AStarNode × ℕ) : List AStarNode × ℕ :=
  let cur := subset_view_positions views bin_pos
  let states := visit_states_of start views bin_pos
  (generate_combinations cur [] [] ITERATIONS).foldl
    (fun acc combination => process_combination lookup path_lookup states cur combination acc)
    acc

/-- The subset loop of `get_optimal_path`: subsets in `_get_visit_options`
order; after each subset the loop breaks as soon as the optimal path is
non-empty. -/
def subset_loop (lookup : CellState → CellState → Option ℕ)
    (path_lookup : CellState → CellState → Option (List AStarNode))
    (start : CellState) (views : List (List CellState)) :
    List (List Bool) → (List AStarNode × ℕ) → List AStarNode × ℕ
  | [], acc => acc
  | bp :: rest, acc =>
      let acc2 := process_subset lookup path_lookup start views bp acc
      if acc2.1 ≠ [] then acc2
      else subset_loop lookup path_lookup start views rest acc2

/-- `get_optimal_path` of the source over the viewing-position lists
(`views = grid.get_view_obstacle_positions()`): min_dist starts at the 1e9
sentinel (ℕ embeds the float costs; all are integral) and optimal_path starts
empty. -/
def get_optimal_path (lookup : CellState → CellState → Option ℕ)
    (path_lookup : CellState → CellState → Option (List AStarNode))
    (start : CellState) (views : List (List CellState)) : List AStarNode × ℕ :=
  subset_loop lookup path_lookup start views (get_visit_options views.length)
    ([], 1000000000)

/-- Interior-bounds characterization of `Grid.is_valid_coord`. -/
theorem is_valid_coord_iff (g : Grid) (x y : ℤ) :
    g.is_valid_coord x y = true ↔ 1 ≤ x ∧ x ≤ g.size_x - 2 ∧ 1 ≤ y ∧ y ≤ g.size_y - 2 := by
  unfold Grid.is_valid_coord
  split
  · rename_i h; constructor
    · intro hc; exact absurd hc (by simp)
    · intro hc; exfalso; omega
  · rename_i h; push_neg at h
    constructor
    · intro _; omega
    · intro _; rfl

/-- C9: the straight-move reachability predicate holds exactly when the
coordinate is interior and every obstacle is both outside Manhattan distance 2
and at Chebyshev distance at least 2. -/
theorem reachable_iff (g : Grid) (x y : ℤ) :
    g.reachable x y = true ↔
      ((1 ≤ x ∧ x ≤ g.size_x - 2 ∧ 1 ≤ y ∧ y ≤ g.size_y - 2) ∧
        ∀ o ∈ g.obstacles, 2 < |o.x - x| + |o.y - y| ∧ 2 ≤ max |o.x - x| |o.y - y|) := by
  unfold Grid.reachable
  by_cases hv : g.is_valid_coord x y = true
  · rw [if_neg (by simp [hv]), List.all_eq_true]
    have hcoord := (is_valid_coord_iff g x y).mp hv
    constructor
    · intro h
      refine ⟨hcoord, fun o ho => ?_⟩
      have := h o ho
      simp only [Bool.and_eq_true, Bool.not_eq_true', decide_eq_false_iff_not, not_le, not_lt] at this
      omega
    · rintro ⟨-, h⟩ o ho
      have := h o ho
      simp only [Bool.and_eq_true, Bool.not_eq_true', decide_eq_false_iff_not, not_le, not_lt]
      omega
  · have hv' : g.is_valid_coord x y = false := by
      revert hv; cases g.is_valid_coord x y <;> simp
    rw [if_pos hv']
    constructor
    · intro h; exact absurd h (by simp)
    · rintro ⟨hint, -⟩
      exact absurd ((is_valid_coord_iff g x y).mpr hint) (by simp [hv'])

/-- Mapping the stored (position, penalty) data out of a slot list is the
identity. -/
theorem map_slot_eta (l : List ((ℤ × ℤ) × ℕ)) :
    l.map (fun pc => ((pc.1.1, pc.1.2), pc.2)) = l := by
  induction l with
  | nil => rfl
  | cons hd tl ih => simp [ih]

/-- C8 counterexample: for a NORTH-facing obstacle at (10, 10) the source's slot
list disagrees with the claim's uniform slot table - the source puts the
lateral -1 candidate (9, 14) in slot 1 where the claim's table puts the
lateral +1 candidate (11, 14). -/
theorem view_slots_spec_cex :
    (Obstacle.mk 10 10 Direction.north 1).view_slots ≠ spec_view_slots Direction.north 10 10 ∧
    ((Obstacle.mk 10 10 Direction.north 1).view_slots)[1]? = some ((9, 14), SCREENSHOT_COST) ∧
    (spec_view_slots Direction.north 10 10)[1]? = some ((11, 14), SCREENSHOT_COST) := by
  refine ⟨?_, by decide, by decide⟩
  decide

/-- C8 amended: for every obstacle with a non-SKIP facing, the raw candidate
slots are the table of `view_slots_amended` (the claim's table with the lateral
signs of slots 1 and 2 flipped for NORTH facings), every surviving view state
faces the opposite of the obstacle's facing and carries the obstacle id,
`get_view_state` keeps exactly the slots passing the class-level grid-position
check in order, and `get_view_obstacle_positions` drops SKIP obstacles and
filters the remaining candidates by `reachable`, preserving order. -/
theorem get_view_state_amended (x y oid : ℤ) (f : Direction) (hf : f ≠ Direction.skip) :
    (Obstacle.mk x y f oid).view_slots = view_slots_amended f x y ∧
    (∀ c ∈ (Obstacle.mk x y f oid).get_view_state,
        c.direction = opposite_facing f ∧ c.screenshot_id = oid) ∧
    (Obstacle.mk x y f oid).get_view_state.map (fun c => ((c.x, c.y), c.penalty)) =
      (Obstacle.mk x y f oid).view_slots.filter
        (fun pc => Grid.is_valid_grid_position pc.1.1 pc.1.2) ∧
    (∀ g : Grid, g.get_view_obstacle_positions =
      (g.obstacles.filter fun o => o.direction ≠ Direction.skip).map
        fun o => o.get_view_state.filter fun v => g.reachable v.x v.y) := by
  cases f
  case skip => exact absurd rfl hf
  all_goals
    refine ⟨?_, ?_, ?_, fun g => rfl⟩
    · simp [Obstacle.view_slots, view_slots_amended, ahead_unit, lateral_unit,
        EXPANDED_CELL, Prod.ext_iff]
      try omega
    · intro c hc
      simp only [Obstacle.get_view_state, List.mem_map] at hc
      obtain ⟨pc, -, rfl⟩ := hc
      exact ⟨rfl, rfl⟩
    · simp only [Obstacle.get_view_state, List.map_map]
      exact map_slot_eta _

/-- C8 amended witness: instantiation at a NORTH-facing obstacle at the
origin. -/
theorem get_view_state_amended_witness :
    Direction.north ≠ Direction.skip ∧
    ((Obstacle.mk 0 0 Direction.north 1).view_slots = view_slots_amended Direction.north 0 0 ∧
     (∀ c ∈ (Obstacle.mk 0 0 Direction.north 1).get_view_state,
         c.direction = opposite_facing Direction.north ∧ c.screenshot_id = 1) ∧
     (Obstacle.mk 0 0 Direction.north 1).get_view_state.map (fun c => ((c.x, c.y), c.penalty)) =
       (Obstacle.mk 0 0 Direction.north 1).view_slots.filter
         (fun pc => Grid.is_valid_grid_position pc.1.1 pc.1.2) ∧
     (∀ g : Grid, g.get_view_obstacle_positions =
       (g.obstacles.filter fun o => o.direction ≠ Direction.skip).map
         fun o => o.get_view_state.filter fun v => g.reachable v.x v.y)) :=
  ⟨by decide, get_view_state_amended 0 0 1 Direction.north (by decide)⟩

/-- C10: `Obstacle.get_view_state` filters candidates against the class-level
default 20x20 bounds of `Grid.is_valid_grid_position` regardless of the actual
grid dimensions; hence on any grid strictly larger than 20x20, an EAST-facing
obstacle at (size_x - 5, 1) has its slot-4 candidate (size_x - 1, 1) inside the
actual grid square yet outside the default square, and that candidate is
dropped from the generated view states. -/
theorem get_view_state_default_bounds :
    (∀ o : Obstacle, ∀ c ∈ o.get_view_state, Grid.is_valid_grid_position c.x c.y = true) ∧
    (∀ sx sy : ℤ, 20 < sx → 20 < sy →
      (((sx - 1, 1), (0 : ℕ)) ∈ (Obstacle.mk (sx - 5) 1 Direction.east 1).view_slots ∧
      (0 ≤ sx - 1 ∧ sx - 1 < sx ∧ (0 : ℤ) ≤ 1 ∧ (1 : ℤ) < sy) ∧
      Grid.is_valid_grid_position (sx - 1) 1 = false ∧
      ∀ c ∈ (Obstacle.mk (sx - 5) 1 Direction.east 1).get_view_state,
        (c.x, c.y) ≠ (sx - 1, 1))) := by
  have key : ∀ o : Obstacle, ∀ c ∈ o.get_view_state,
      Grid.is_valid_grid_position c.x c.y = true := by
    rintro ⟨ox, oy, d, oid⟩ c hc
    cases d <;> simp only [Obstacle.get_view_state, List.mem_map, List.mem_filter] at hc
    case skip => exact absurd hc (List.not_mem_nil c)
    all_goals
      obtain ⟨pc, ⟨-, hvalid⟩, rfl⟩ := hc
      exact hvalid
  refine ⟨key, fun sx sy hx hy => ⟨?_, by omega, ?_, ?_⟩⟩
  · simp only [Obstacle.view_slots, EXPANDED_CELL, TOO_CLOSE_COST, SCREENSHOT_COST,
      List.mem_cons, Prod.mk.injEq, List.not_mem_nil, or_false, and_true, true_and]
    omega
  · simp only [Grid.is_valid_grid_position, Bool.and_eq_false_iff, decide_eq_false_iff_not,
      not_and, not_lt]
    left
    intro _
    omega
  · intro c hc hne
    have hval := key _ c hc
    rw [Prod.mk.injEq] at hne
    obtain ⟨h1, h2⟩ := hne
    simp only [Grid.is_valid_grid_position, Bool.and_eq_true, decide_eq_true_eq] at hval
    omega

/-- C10 witness: instantiation on a 30x30 grid. -/
theorem get_view_state_default_bounds_witness :
    (20 : ℤ) < 30 ∧
    ((((30 : ℤ) - 1, (1 : ℤ)), (0 : ℕ)) ∈ (Obstacle.mk (30 - 5) 1 Direction.east 1).view_slots ∧
    (0 ≤ (30 : ℤ) - 1 ∧ (30 : ℤ) - 1 < 30 ∧ (0 : ℤ) ≤ 1 ∧ (1 : ℤ) < 30) ∧
    Grid.is_valid_grid_position ((30 : ℤ) - 1) 1 = false ∧
    ∀ c ∈ (Obstacle.mk ((30 : ℤ) - 5) 1 Direction.east 1).get_view_state,
      (c.x, c.y) ≠ ((30 : ℤ) - 1, 1)) :=
  ⟨by norm_num, get_view_state_default_bounds.2 30 30 (by norm_num) (by norm_num)⟩

/-- Lookup of a freshly inserted g_dist binding at its own key. -/
theorem g_dist_lookup_insert_self (t : List (AStarNode × ℕ)) (k : AStarNode) (v : ℕ) :
    g_dist_lookup (g_dist_insert t k v) k = some v := by
  simp [g_dist_lookup, g_dist_insert, List.find?_cons_of_pos]

/-- C3 counterexample: relaxing the end pose itself (penalty 100) from g-value
0 via a straight FORWARD edge (motion cost 1) with proximity 0 records
g = 101, not the g + motion_cost + proximity = 1 the claim states. -/
theorem astar_relax_screenshot_cex :
    motion_cost Direction.north Direction.north Motion.forward = some 1 ∧
    g_dist_lookup
      (astar_relax [] 0 1 0 (CellState.mk 1 2 Direction.north 1 100) 1 2 Direction.north).1
      (1, 2, Direction.north) = some 101 ∧
    (101 : ℕ) ≠ 0 + (1 + 0) := by
  refine ⟨by decide, ?_, by decide⟩
  decide

/-- C3 amended: whenever the relaxation guard fires (the neighbor is new, or
dist + motion_cost + proximity beats the stored g-value), the recorded g-value
is dist + motion_cost + proximity PLUS the screenshot penalty (the end pose's
penalty when the neighbor is the end pose), and the pushed heap priority f is
that same sum plus the Manhattan heuristic; the guard itself compares without
the screenshot penalty. -/
theorem astar_relax_g_update (g_dist : List (AStarNode × ℕ)) (dist mc safe_cost : ℕ)
    (endSt : CellState) (nx ny : ℤ) (nd : Direction)
    (h : g_dist_lookup g_dist (nx, ny, nd) = none ∨
      ∃ old, g_dist_lookup g_dist (nx, ny, nd) = some old ∧ dist + (mc + safe_cost) < old) :
    g_dist_lookup (astar_relax g_dist dist mc safe_cost endSt nx ny nd).1 (nx, ny, nd) =
      some (dist + (mc + safe_cost) + (if endSt.is_eq nx ny nd then endSt.penalty else 0)) ∧
    (astar_relax g_dist dist mc safe_cost endSt nx ny nd).2 =
      some (dist + (mc + safe_cost) + (if endSt.is_eq nx ny nd then endSt.penalty else 0) +
              estimate_distance nx ny endSt,
            (nx, ny, nd)) := by
  unfold astar_relax
  rcases h with h | ⟨old, hold, hlt⟩
  · rw [h]
    constructor
    · exact g_dist_lookup_insert_self _ _ _
    · rfl
  · rw [hold]
    simp only [if_pos hlt]
    constructor
    · exact g_dist_lookup_insert_self _ _ _
    · trivial

/-- C3 amended witness: the concrete relaxation of the counterexample input
satisfies the guard (fresh key) and the amended characterization. -/
theorem astar_relax_g_update_witness :
    (g_dist_lookup [] ((1 : ℤ), (2 : ℤ), Direction.north) = none ∨
      ∃ old, g_dist_lookup [] ((1 : ℤ), (2 : ℤ), Direction.north) = some old ∧
        0 + (1 + 0) < old) ∧
    (g_dist_lookup
        (astar_relax [] 0 1 0 (CellState.mk 1 2 Direction.north 1 100) 1 2 Direction.north).1
        (1, 2, Direction.north) =
      some (0 + (1 + 0) +
        (if (CellState.mk 1 2 Direction.north 1 100).is_eq 1 2 Direction.north then
          (CellState.mk 1 2 Direction.north 1 100).penalty else 0)) ∧
    (astar_relax [] 0 1 0 (CellState.mk 1 2 Direction.north 1 100) 1 2 Direction.north).2 =
      some (0 + (1 + 0) +
        (if (CellState.mk 1 2 Direction.north 1 100).is_eq 1 2 Direction.north then
          (CellState.mk 1 2 Direction.north 1 100).penalty else 0) +
        estimate_distance 1 2 (CellState.mk 1 2 Direction.north 1 100),
        (1, 2, Direction.north))) :=
  ⟨Or.inl rfl,
   astar_relax_g_update [] 0 1 0 (CellState.mk 1 2 Direction.north 1 100) 1 2 Direction.north
     (Or.inl rfl)⟩

/-- Lookup of a single stored cost-table binding: it hits exactly when the
pair keys are identity-equal. -/
theorem cost_table_lookup_single (k k' : CellStateObj × CellStateObj) (v : ℕ) :
    cost_table_lookup (cost_table_insert [] k v) k' =
      if pair_key_eq k k' then some v else none := by
  unfold cost_table_lookup cost_table_insert
  rcases h : pair_key_eq k k' with _ | _
  · rw [List.find?_cons_of_neg _ (by simpa using h)]
    simp
  · rw [List.find?_cons_of_pos _ (by simpa using h)]
    simp

/-- C2 counterexample: two `CellState` instances agreeing on (x, y, direction)
(and even on penalty and screenshot list) are distinct dict keys, and a
cost-table lookup keyed by the distinct twin misses the stored entry. -/
theorem cellstate_key_identity_cex :
    ((CellStateObj.mk 0 5 5 Direction.north [] 0).x =
        (CellStateObj.mk 1 5 5 Direction.north [] 0).x ∧
      (CellStateObj.mk 0 5 5 Direction.north [] 0).y =
        (CellStateObj.mk 1 5 5 Direction.north [] 0).y ∧
      (CellStateObj.mk 0 5 5 Direction.north [] 0).direction =
        (CellStateObj.mk 1 5 5 Direction.north [] 0).direction) ∧
    cellstate_key_eq (CellStateObj.mk 0 5 5 Direction.north [] 0)
      (CellStateObj.mk 1 5 5 Direction.north [] 0) = false ∧
    cost_table_lookup
      (cost_table_insert []
        (CellStateObj.mk 0 5 5 Direction.north [] 0, CellStateObj.mk 2 1 1 Direction.north [] 0)
        42)
      (CellStateObj.mk 1 5 5 Direction.north [] 0, CellStateObj.mk 2 1 1 Direction.north [] 0) =
      none := by
  refine ⟨by decide, by decide, ?_⟩
  decide

/-- C2 amended: `CellState` defines neither `__eq__` nor `__hash__`, so memo
table keys compare by object identity only - two poses are equal as keys
exactly when they are the same object, irrespective of every field; a lookup
hits a stored cost-table entry exactly when both components of the pair are
identically the stored objects. -/
theorem cellstate_key_identity (a b c d : CellStateObj) (v : ℕ) :
    (cellstate_key_eq a b = true ↔ a.ref = b.ref) ∧
    (cost_table_lookup (cost_table_insert [] (a, c) v) (b, d) = some v ↔
      b.ref = a.ref ∧ d.ref = c.ref) := by
  constructor
  · simp [cellstate_key_eq]
  · rw [cost_table_lookup_single]
    split_ifs with h
    · simp only [pair_key_eq, cellstate_key_eq, Bool.and_eq_true, beq_iff_eq] at h
      exact ⟨fun _ => ⟨h.1.symm, h.2.symm⟩, fun _ => rfl⟩
    · simp only [pair_key_eq, cellstate_key_eq, Bool.and_eq_true, beq_iff_eq] at h
      constructor
      · intro hc; exact absurd hc (by simp)
      · rintro ⟨h1, h2⟩; exact absurd ⟨h1.symm, h2.symm⟩ h

/-- Closed form of `_generate_combinations`: the budget is consumed once per
recursion level along each path, and sibling branches do not share it, so when
the budget is at least the number of levels the full Cartesian product is
produced, and otherwise nothing at all is appended to the result. -/
theorem generate_combinations_eq {α : Type} :
    ∀ (vp : List (List α)) (current : List ℕ) (result : List (List ℕ)) (n : ℕ),
      generate_combinations vp current result n =
        result ++ (if vp.length ≤ n then (combos vp).map (fun c => current ++ c) else []) := by
  intro vp
  induction vp with
  | nil =>
      intro current result n
      simp [generate_combinations, combos]
  | cons opts rest ih =>
      intro current result n
      by_cases hn : n = 0
      · subst hn
        simp [generate_combinations]
      · simp only [generate_combinations, if_neg hn]
        have key : ∀ (idxs : List ℕ) (res : List (List ℕ)),
            idxs.foldl (fun res i => generate_combinations rest (current ++ [i]) res (n - 1)) res
              = res ++ (if rest.length ≤ n - 1 then
                  idxs.flatMap (fun i => (combos rest).map fun c => (current ++ [i]) ++ c)
                  else []) := by
          intro idxs
          induction idxs with
          | nil => intro res; simp
          | cons i it iht =>
              intro res
              rw [List.foldl_cons, iht, ih]
              by_cases hr : rest.length ≤ n - 1
              · simp [hr, List.append_assoc]
              · simp [hr]
        rw [key]
        by_cases hr : rest.length ≤ n - 1
        · rw [if_pos hr, if_pos (by simp only [List.length_cons]; omega)]
          simp only [combos]
          congr 1
          rw [List.map_flatMap]
          have hfun : (fun i => (combos rest).map fun c => (current ++ [i]) ++ c)
              = fun i => ((combos rest).map fun c => i :: c).map fun c => current ++ c := by
            funext i
            simp [List.map_map, Function.comp, List.append_assoc]
          rw [hfun]
        · rw [if_neg hr, if_neg (by simp only [List.length_cons]; omega)]

/-- Summing a constant over a list multiplies it by the length. -/
theorem map_sum_const {β : Type} (l : List β) (k : ℕ) :
    (List.map (fun _ => k) l).sum = l.length * k := by
  induction l with
  | nil => simp
  | cons x xs ih =>
      simp only [List.map_cons, List.sum_cons, ih, List.length_cons]
      ring

/-- The number of full assignments is the product of the slot-list lengths. -/
theorem combos_length {α : Type} :
    ∀ vp : List (List α), (combos vp).length = (vp.map List.length).prod := by
  intro vp
  induction vp with
  | nil => rfl
  | cons opts rest ih =>
      simp only [combos, List.length_flatMap, Function.comp_def, List.length_map]
      rw [map_sum_const, List.length_range, ih]
      simp

/-- C4 counterexample: with 11 obstacle slot-lists of 2 candidates each, the
budget ITERATIONS = 2000 never runs out (depth 11 < 2000) and the enumeration
yields the full product of 2048 > 2000 assignments. -/
theorem generate_combinations_cap_cex :
    (generate_combinations (List.replicate 11 [(0 : ℕ), 1]) [] [] ITERATIONS).length = 2048 ∧
    2000 < (generate_combinations (List.replicate 11 [(0 : ℕ), 1]) [] [] ITERATIONS).length := by
  have h := generate_combinations_eq (List.replicate 11 [(0 : ℕ), 1]) [] [] ITERATIONS
  rw [if_pos (by simp [ITERATIONS])] at h
  have hlen : (generate_combinations (List.replicate 11 [(0 : ℕ), 1]) [] [] ITERATIONS).length
      = 2048 := by
    rw [h]
    simp [combos_length, List.map_replicate, List.prod_replicate]
  exact ⟨hlen, by rw [hlen]; norm_num⟩

/-- C4 amended: the DFS budget of `_generate_combinations` counts down once per
recursion level along each path and is not shared between sibling branches, so
it bounds the recursion depth, not the total number of enumerated assignments:
with the budget ITERATIONS = 2000, the enumeration is the full Cartesian
product of slot choices whenever there are at most 2000 slot-lists (so the
total may far exceed 2000) and is empty otherwise. -/
theorem generate_combinations_budget {α : Type} (vp : List (List α)) :
    generate_combinations vp [] [] ITERATIONS =
      if vp.length ≤ ITERATIONS then combos vp else [] := by
  rw [generate_combinations_eq]
  split_ifs with h
  · simp
  · simp

/-- C7: after any sequence of `_record_path` calls starting from the empty
tables, the cost table is symmetric in its two keys (one entry exists iff the
swapped entry exists, with the same value) and the path table holds under each
key the reverse of the sequence held under the swapped key. -/
theorem tables_symmetric {κ π : Type} [DecidableEq κ]
    {ct : κ × κ → Option ℕ} {pt : κ × κ → Option (List π)}
    (h : TablesReached ct pt) (a b : κ) :
    ct (a, b) = ct (b, a) ∧ pt (a, b) = (pt (b, a)).map List.reverse := by
  induction h with
  | empty => exact ⟨rfl, rfl⟩
  | step a0 b0 path cost hab hprev ih =>
      obtain ⟨ihc, ihp⟩ := ih
      constructor
      · simp only [record_path, Prod.mk.injEq]
        split_ifs <;> simp_all
      · simp only [record_path, Prod.mk.injEq]
        split_ifs <;> simp_all

/-- C7 witness: one recorded search between the distinct keys 0 and 1. -/
theorem tables_symmetric_witness :
    ((record_path (fun _ : ℕ × ℕ => (none : Option ℕ)) (fun _ : ℕ × ℕ => (none : Option (List ℕ))) 0 1 [7] 5).1 (0, 1) =
      (record_path (fun _ : ℕ × ℕ => (none : Option ℕ)) (fun _ : ℕ × ℕ => (none : Option (List ℕ))) 0 1 [7] 5).1 (1, 0)) ∧
    ((record_path (fun _ : ℕ × ℕ => (none : Option ℕ)) (fun _ : ℕ × ℕ => (none : Option (List ℕ))) 0 1 [7] 5).2 (0, 1) =
      ((record_path (fun _ : ℕ × ℕ => (none : Option ℕ)) (fun _ : ℕ × ℕ => (none : Option (List ℕ))) 0 1 [7] 5).2
        (1, 0)).map List.reverse) :=
  tables_symmetric (TablesReached.step 0 1 [7] 5 (by decide) TablesReached.empty) 0 1

/-- The opposite of a drive motion is a drive motion. -/
theorem opposite_ne_capture (m : Motion) (h : m ≠ Motion.capture) :
    m.opposite_motion ≠ Motion.capture := by
  cases m <;> first | exact absurd rfl h | decide

/-- For every drive motion, the opposite motion's enum value is 10 minus its
own value. -/
theorem opposite_motion_val (m : Motion) (h : m ≠ Motion.capture) :
    m.opposite_motion.val = 10 - m.val := by
  cases m <;> first | exact absurd rfl h | decide

/-- A successful motion-table lookup returns the motion of some stored
entry. -/
theorem motion_table_lookup_mem (mt : List (MotionKey × Motion)) (k : MotionKey)
    {m : Motion} (h : motion_table_lookup mt k = some m) :
    ∃ e ∈ mt, e.2 = m := by
  unfold motion_table_lookup at h
  cases hfind : mt.find? fun e => e.1 = k with
  | none => rw [hfind] at h; exact absurd h (by simp)
  | some e =>
      rw [hfind] at h
      exact ⟨e, List.mem_of_find?_eq_some hfind, by simpa using h⟩

/-- Under the single-direction storage invariant of `motion_table`, a
successful lookup of one directed key forces the swapped key to be absent. -/
theorem motion_lookup_rev_none (mt : List (MotionKey × Motion))
    (hdir : ∀ e ∈ mt, motion_table_lookup mt (e.1.2, e.1.1) = none)
    {k1 k2 : AStarNode} {m : Motion}
    (h : motion_table_lookup mt (k1, k2) = some m) :
    motion_table_lookup mt (k2, k1) = none := by
  unfold motion_table_lookup at h
  cases hfind : mt.find? fun e => e.1 = (k1, k2) with
  | none => rw [hfind] at h; exact absurd h (by simp)
  | some e =>
      have hmem := List.mem_of_find?_eq_some hfind
      have hkey : e.1 = (k1, k2) := by simpa using List.find?_some hfind
      have hrev := hdir e hmem
      rw [hkey] at hrev
      exact hrev

/-- Under the single-direction storage invariant, the source's
reverse-key-first resolution agrees with the claim's forward-key-first
resolution. -/
theorem resolve_motion_eq_claim (mt : List (MotionKey × Motion))
    (hdir : ∀ e ∈ mt, motion_table_lookup mt (e.1.2, e.1.1) = none)
    (u v : PathPose) :
    resolve_motion mt u v = resolve_motion_claim mt u v := by
  unfold resolve_motion resolve_motion_claim
  cases hvu : motion_table_lookup mt (pose_node v, pose_node u) with
  | none =>
      cases huv : motion_table_lookup mt (pose_node u, pose_node v) <;> simp [hvu, huv]
  | some m =>
      have huv := motion_lookup_rev_none mt hdir hvu
      simp [hvu, huv]

/-- A motion resolved from a table that stores no CAPTURE entry is not
CAPTURE. -/
theorem resolve_motion_ne_capture (mt : List (MotionKey × Motion))
    (hcap : ∀ e ∈ mt, e.2 ≠ Motion.capture) {u v : PathPose} {m : Motion}
    (h : resolve_motion mt u v = some m) : m ≠ Motion.capture := by
  unfold resolve_motion at h
  cases hvu : motion_table_lookup mt (pose_node v, pose_node u) with
  | some m0 =>
      rw [hvu] at h
      obtain ⟨e, hmem, he⟩ := motion_table_lookup_mem mt _ hvu
      have : m = m0.opposite_motion := by simpa using h.symm
      rw [this]
      exact opposite_ne_capture m0 (he ▸ hcap e hmem)
  | none =>
      rw [hvu] at h
      obtain ⟨e, hmem, he⟩ := motion_table_lookup_mem mt _ h
      exact he ▸ hcap e hmem

/-- `optimal_path_to_motion_path` fails exactly when some consecutive pair of
the path has neither directed key in the motion table. -/
theorem o2m_error_iff (mt : List (MotionKey × Motion)) :
    ∀ path : List PathPose,
      (optimal_path_to_motion_path mt path).isOk = false ↔
        ∃ p ∈ path.zip path.tail,
          motion_table_lookup mt (pose_node p.1, pose_node p.2) = none ∧
          motion_table_lookup mt (pose_node p.2, pose_node p.1) = none := by
  intro path
  induction path with
  | nil => simp [optimal_path_to_motion_path, Except.isOk, Except.toBool]
  | cons u tl ih =>
      cases tl with
      | nil => simp [optimal_path_to_motion_path, Except.isOk, Except.toBool]
      | cons v rest =>
          cases hres : resolve_motion mt u v with
          | none =>
              have hboth : motion_table_lookup mt (pose_node u, pose_node v) = none ∧
                  motion_table_lookup mt (pose_node v, pose_node u) = none := by
                unfold resolve_motion at hres
                cases hvu : motion_table_lookup mt (pose_node v, pose_node u) with
                | none => rw [hvu] at hres; exact ⟨hres, by simp [hvu]⟩
                | some m0 => rw [hvu] at hres; exact absurd hres (by simp)
              simp only [optimal_path_to_motion_path, hres, Except.isOk, Except.toBool,
                List.zip_cons_cons, List.tail_cons, List.mem_cons]
              constructor
              · intro _
                exact ⟨(u, v), Or.inl rfl, hboth⟩
              · intro _
                trivial
          | some m =>
              cases hrec : optimal_path_to_motion_path mt (v :: rest) with
              | error e =>
                  have htail := ih.mp (by rw [hrec]; rfl)
                  simp only [optimal_path_to_motion_path, hres, hrec, Except.isOk,
                    Except.toBool, List.zip_cons_cons, List.tail_cons, List.mem_cons]
                  constructor
                  · intro _
                    obtain ⟨p, hp, hpp⟩ := htail
                    exact ⟨p, Or.inr (by simpa using hp), hpp⟩
                  · intro _
                    trivial
              | ok msids =>
                  have htail : ¬ ∃ p ∈ (v :: rest).zip ((v :: rest).tail),
                      motion_table_lookup mt (pose_node p.1, pose_node p.2) = none ∧
                      motion_table_lookup mt (pose_node p.2, pose_node p.1) = none := by
                    intro hex
                    have := ih.mpr hex
                    rw [hrec] at this
                    exact absurd this (by simp [Except.isOk, Except.toBool])
                  have hpair : ¬ (motion_table_lookup mt (pose_node u, pose_node v) = none ∧
                      motion_table_lookup mt (pose_node v, pose_node u) = none) := by
                    rintro ⟨h1, h2⟩
                    unfold resolve_motion at hres
                    rw [h2, h1] at hres
                    exact absurd hres (by simp)
                  simp only [optimal_path_to_motion_path, hres, hrec, Except.isOk,
                    Except.toBool, List.zip_cons_cons, List.tail_cons, List.mem_cons]
                  constructor
                  · intro hfalse
                    exact absurd hfalse (by simp)
                  · rintro ⟨p, hp | hp, hpp⟩
                    · subst hp
                      exact absurd hpp hpair
                    · exact absurd ⟨p, by simpa using hp, hpp⟩ htail

/-- In a successful conversion, the CAPTURE markers and the parallel id list
grow in lockstep: one marker and one id per screenshot tag of each arrival
pose. -/
theorem o2m_capture_count (mt : List (MotionKey × Motion))
    (hcap : ∀ e ∈ mt, e.2 ≠ Motion.capture) :
    ∀ (path : List PathPose) (ms : List Motion) (ids : List String),
      optimal_path_to_motion_path mt path = .ok (ms, ids) →
      ms.count Motion.capture = ids.length := by
  intro path
  induction path with
  | nil =>
      intro ms ids h
      simp only [optimal_path_to_motion_path, Except.ok.injEq, Prod.mk.injEq] at h
      obtain ⟨h1, h2⟩ := h
      subst h1; subst h2
      rfl
  | cons u tl ih =>
      cases tl with
      | nil =>
          intro ms ids h
          simp only [optimal_path_to_motion_path, Except.ok.injEq, Prod.mk.injEq] at h
          obtain ⟨h1, h2⟩ := h
          subst h1; subst h2
          rfl
      | cons v rest =>
          intro ms ids h
          rw [optimal_path_to_motion_path] at h
          cases hres : resolve_motion mt u v with
          | none => rw [hres] at h; exact absurd h (by simp)
          | some m =>
              rw [hres] at h
              cases hrec : optimal_path_to_motion_path mt (v :: rest) with
              | error e => rw [hrec] at h; exact absurd h (by simp)
              | ok msids =>
                  rw [hrec] at h
                  simp only [Except.ok.injEq, Prod.mk.injEq] at h
                  obtain ⟨h1, h2⟩ := h
                  subst h1; subst h2
                  have hm := resolve_motion_ne_capture mt hcap hres
                  have ihc := ih msids.1 msids.2 (by rw [hrec])
                  simp [List.count_cons, List.count_append, List.count_replicate, hm, ihc]

/-- C6: under the motion table's invariants (each edge stored under exactly one
directed key, and never CAPTURE), the source's reverse-first resolution equals
the claim's forward-first rule motion_table[u,v] else inverse of
motion_table[v,u]; the inverse of a drive motion has value 10 minus the
original value; the conversion fails exactly when some consecutive pair has
neither directed key; and on success the number of CAPTURE markers equals the
length of the parallel obstacle-id list. -/
theorem optimal_path_to_motion_path_spec (mt : List (MotionKey × Motion))
    (path : List PathPose)
    (hdir : ∀ e ∈ mt, motion_table_lookup mt (e.1.2, e.1.1) = none)
    (hcap : ∀ e ∈ mt, e.2 ≠ Motion.capture) :
    (∀ u v : PathPose, resolve_motion mt u v = resolve_motion_claim mt u v) ∧
    (∀ m : Motion, m ≠ Motion.capture → m.opposite_motion.val = 10 - m.val) ∧
    ((optimal_path_to_motion_path mt path).isOk = false ↔
      ∃ p ∈ path.zip path.tail,
        motion_table_lookup mt (pose_node p.1, pose_node p.2) = none ∧
        motion_table_lookup mt (pose_node p.2, pose_node p.1) = none) ∧
    (∀ ms ids, optimal_path_to_motion_path mt path = .ok (ms, ids) →
      ms.count Motion.capture = ids.length) :=
  ⟨fun u v => resolve_motion_eq_claim mt hdir u v,
   fun m hm => opposite_motion_val m hm,
   o2m_error_iff mt path,
   fun ms ids h => o2m_capture_count mt hcap path ms ids h⟩

/-- C6 witness: the concrete one-edge table and two-pose path satisfy the
invariants, so the characterization applies to them. -/
theorem optimal_path_to_motion_path_spec_witness :
    (∀ e ∈ sample_motion_table, motion_table_lookup sample_motion_table (e.1.2, e.1.1) = none) ∧
    (∀ e ∈ sample_motion_table, e.2 ≠ Motion.capture) ∧
    ((∀ u v : PathPose,
        resolve_motion sample_motion_table u v = resolve_motion_claim sample_motion_table u v) ∧
     (∀ m : Motion, m ≠ Motion.capture → m.opposite_motion.val = 10 - m.val) ∧
     ((optimal_path_to_motion_path sample_motion_table sample_path).isOk = false ↔
       ∃ p ∈ sample_path.zip sample_path.tail,
         motion_table_lookup sample_motion_table (pose_node p.1, pose_node p.2) = none ∧
         motion_table_lookup sample_motion_table (pose_node p.2, pose_node p.1) = none) ∧
     (∀ ms ids, optimal_path_to_motion_path sample_motion_table sample_path = .ok (ms, ids) →
       ms.count Motion.capture = ids.length)) :=
  ⟨by decide, by decide,
   optimal_path_to_motion_path_spec sample_motion_table sample_path (by decide) (by decide)⟩

/-- Reading a bit string from an arbitrary accumulator. -/
theorem foldl_bits_init :
    ∀ (s : List Bool) (a : ℕ),
      s.foldl (fun a b => 2 * a + (if b then 1 else 0)) a = a * 2 ^ s.length + bitsVal s := by
  intro s
  induction s with
  | nil => intro a; simp [bitsVal]
  | cons b t ih =>
      intro a
      have hb : bitsVal (b :: t) = (if b then 1 else 0) * 2 ^ t.length + bitsVal t := by
        unfold bitsVal
        rw [List.foldl_cons, ih]
        simp [bitsVal]
      rw [List.foldl_cons, ih, hb, List.length_cons]
      ring

/-- Appending a digit doubles the value and adds the digit. -/
theorem bitsVal_append_bit (s : List Bool) (b : Bool) :
    bitsVal (s ++ [b]) = 2 * bitsVal s + (if b then 1 else 0) := by
  unfold bitsVal
  rw [List.foldl_append]
  rfl

/-- `natBits` is a binary representation. -/
theorem natBits_val : ∀ i : ℕ, bitsVal (natBits i) = i := by
  intro i
  induction i using Nat.strong_induction_on with
  | _ i ih =>
      match i with
      | 0 => simp [natBits, bitsVal]
      | n + 1 =>
          rw [natBits, bitsVal_append_bit, ih ((n + 1) / 2) (by omega)]
          rcases Nat.mod_two_eq_zero_or_one (n + 1) with h | h <;> simp [h] <;> omega

/-- A number below 2 ^ n has at most n binary digits. -/
theorem natBits_length : ∀ n i : ℕ, i < 2 ^ n → (natBits i).length ≤ n := by
  intro n
  induction n with
  | zero =>
      intro i h
      interval_cases i
      simp [natBits]
  | succ n ih =>
      intro i h
      match i with
      | 0 => simp [natBits]
      | m + 1 =>
          rw [natBits, List.length_append]
          have h2 : (2 : ℕ) ^ (n + 1) = 2 * 2 ^ n := by ring
          have := ih ((m + 1) / 2) (by omega)
          simp only [List.length_cons, List.length_nil]
          omega

/-- Padding with zeros to at least the current length gives exactly the target
length. -/
theorem zfill_length {n : ℕ} {s : List Bool} (h : s.length ≤ n) :
    (zfill n s).length = n := by
  simp [zfill]
  omega

/-- Leading zeros do not change the value. -/
theorem bitsVal_zfill (n : ℕ) (s : List Bool) : bitsVal (zfill n s) = bitsVal s := by
  have hrep : ∀ k : ℕ,
      (List.replicate k false).foldl (fun a b => 2 * a + (if b then 1 else 0)) 0 = 0 := by
    intro k
    induction k with
    | zero => rfl
    | succ k ihk => simpa [List.replicate_succ] using ihk
  unfold zfill bitsVal
  rw [List.foldl_append]
  rw [show (List.replicate (n - s.length) false).foldl
    (fun a b => 2 * a + (if b then 1 else 0)) 0 = 0 from hrep _]

/-- `pyBin` is a binary representation. -/
theorem pyBin_val (i : ℕ) : bitsVal (pyBin i) = i := by
  unfold pyBin
  split_ifs with h
  · subst h; rfl
  · exact natBits_val i

/-- For a positive length bound, `pyBin` of a number below 2 ^ n has at most n
digits. -/
theorem pyBin_length_le {n i : ℕ} (hn : 1 ≤ n) (h : i < 2 ^ n) :
    (pyBin i).length ≤ n := by
  unfold pyBin
  split_ifs with h0
  · simpa using hn
  · exact natBits_length n i h

/-- The all-ones pattern: 2 ^ n - 1 has exactly n digits, all set. -/
theorem natBits_pow_sub_one : ∀ n : ℕ, natBits (2 ^ n - 1) = List.replicate n true := by
  intro n
  induction n with
  | zero => simp [natBits]
  | succ n ih =>
      have h2 : (2 : ℕ) ^ (n + 1) = 2 * 2 ^ n := by ring
      have hpos : 1 ≤ (2 : ℕ) ^ n := Nat.one_le_two_pow
      obtain ⟨j, hj⟩ : ∃ j, 2 ^ (n + 1) - 1 = j + 1 := ⟨2 ^ (n + 1) - 2, by omega⟩
      rw [hj, natBits]
      have hdiv : (j + 1) / 2 = 2 ^ n - 1 := by omega
      have hmod : (j + 1) % 2 = 1 := by omega
      rw [hdiv, hmod, ih]
      simp [List.replicate_succ']

/-- The max_len computed by `_get_visit_options` is n for positive n. -/
theorem max_len_eq {n : ℕ} (hn : 1 ≤ n) : (pyBin (2 ^ n - 1)).count true = n := by
  have hpos : 1 ≤ (2 : ℕ) ^ n := Nat.one_le_two_pow
  have h2 : (2 : ℕ) ^ n ≥ 2 := by
    calc (2 : ℕ) ^ n ≥ 2 ^ 1 := Nat.pow_le_pow_right (by norm_num) hn
    _ = 2 := by norm_num
  unfold pyBin
  rw [if_neg (by omega), natBits_pow_sub_one]
  simp

/-- A bit string's value is below 2 to its length. -/
theorem bitsVal_lt (s : List Bool) : bitsVal s < 2 ^ s.length := by
  have key : ∀ (t : List Bool) (a : ℕ),
      t.foldl (fun a b => 2 * a + (if b then 1 else 0)) a < (a + 1) * 2 ^ t.length := by
    intro t
    induction t with
    | nil => intro a; simp
    | cons b u ih =>
        intro a
        rw [List.foldl_cons]
        calc u.foldl (fun a b => 2 * a + (if b then 1 else 0)) (2 * a + (if b then 1 else 0))
            < (2 * a + (if b then 1 else 0) + 1) * 2 ^ u.length := ih _
          _ ≤ (a + 1) * 2 ^ (b :: u).length := by
              rw [List.length_cons]
              have hb : (if b then 1 else 0) ≤ 1 := by split_ifs <;> omega
              have h2 : (2 : ℕ) ^ (u.length + 1) = 2 * 2 ^ u.length := by ring
              have hpos : 1 ≤ (2 : ℕ) ^ u.length := Nat.one_le_two_pow
              nlinarith
  have := key s 0
  simpa [bitsVal] using this

/-- Two bit strings of the same length with the same value are equal. -/
theorem bitsVal_inj : ∀ s t : List Bool, s.length = t.length → bitsVal s = bitsVal t → s = t := by
  intro s
  induction s with
  | nil =>
      intro t hlen _
      cases t with
      | nil => rfl
      | cons c t2 => exact absurd hlen (by simp)
  | cons b s2 ih =>
      intro t hlen hval
      cases t with
      | nil => exact absurd hlen (by simp)
      | cons c t2 =>
          have hs : bitsVal (b :: s2) = (if b then 1 else 0) * 2 ^ s2.length + bitsVal s2 := by
            unfold bitsVal
            rw [List.foldl_cons, foldl_bits_init]
            simp [bitsVal]
          have ht : bitsVal (c :: t2) = (if c then 1 else 0) * 2 ^ t2.length + bitsVal t2 := by
            unfold bitsVal
            rw [List.foldl_cons, foldl_bits_init]
            simp [bitsVal]
          have hlen2 : s2.length = t2.length := by simpa using hlen
          have hs2 := bitsVal_lt s2
          have ht2 := bitsVal_lt t2
          rw [hs, ht, hlen2] at hval
          have hbc : (if b then 1 else 0 : ℕ) = (if c then 1 else 0) := by
            rw [hlen2] at hs2
            split_ifs at hval ⊢ <;> omega
          have hb : b = c := by
            revert hbc
            cases b <;> cases c <;> simp
          have hv2 : bitsVal s2 = bitsVal t2 := by
            rw [hbc] at hval
            omega
          rw [hb, ih t2 hlen2 hv2]

/-- There are 2 ^ n strings before sorting. -/
theorem visit_strings_length (n : ℕ) : (visit_strings n).length = 2 ^ n := by
  simp [visit_strings]

/-- For positive n every generated string has exactly n characters. -/
theorem mem_visit_strings_length {n : ℕ} (hn : 1 ≤ n) :
    ∀ s ∈ visit_strings n, s.length = n := by
  intro s hs
  simp only [visit_strings, List.mem_map, List.mem_range] at hs
  obtain ⟨i, hi, rfl⟩ := hs
  rw [max_len_eq hn]
  exact zfill_length (pyBin_length_le hn hi)

/-- The generated strings are pairwise distinct. -/
theorem visit_strings_nodup (n : ℕ) : (visit_strings n).Nodup := by
  unfold visit_strings
  have hinj : Function.Injective
      (fun i => zfill ((pyBin (2 ^ n - 1)).count true) (pyBin i)) := by
    intro i j hij
    have := congrArg bitsVal hij
    simpa [bitsVal_zfill, pyBin_val] using this
  exact (List.nodup_range _).map hinj

/-- For positive n every n-character bit string is generated. -/
theorem mem_visit_strings_of_length {n : ℕ} (hn : 1 ≤ n) (s : List Bool)
    (hs : s.length = n) : s ∈ visit_strings n := by
  have hval := bitsVal_lt s
  rw [hs] at hval
  have heq : zfill ((pyBin (2 ^ n - 1)).count true) (pyBin (bitsVal s)) = s := by
    rw [max_len_eq hn]
    apply bitsVal_inj
    · rw [zfill_length (pyBin_length_le hn hval), hs]
    · rw [bitsVal_zfill, pyBin_val]
  unfold visit_strings
  rw [List.mem_map]
  exact ⟨bitsVal s, List.mem_range.mpr hval, heq⟩

/-- The sorted option list is pairwise in descending popcount order. -/
theorem get_visit_options_sorted (n : ℕ) :
    (get_visit_options n).Pairwise (fun a b => popcount b ≤ popcount a) := by
  have h := @List.sorted_mergeSort (List Bool)
    (fun a b => decide (popcount b ≤ popcount a))
    (fun a b c hab hbc => by simp only [decide_eq_true_eq] at *; omega)
    (fun a b => by simp only [Bool.or_eq_true, decide_eq_true_eq]; omega)
    (visit_strings n)
  exact h.imp fun hab => by simpa using hab

/-- The first-success loop picks a success, and on a sorted list every other
success is dominated by it. -/
theorem break_loop_spec {β : Type} (succeeds : β → Bool) (R : β → β → Prop) :
    ∀ l : List β, l.Pairwise R → ∀ r, break_loop succeeds l = some r →
      succeeds r = true ∧ ∀ t ∈ l, succeeds t = true → (t = r ∨ R r t) := by
  intro l
  induction l with
  | nil => intro _ r h; exact absurd h (by simp [break_loop])
  | cons a tl ih =>
      intro hpw r h
      rw [break_loop] at h
      by_cases ha : succeeds a = true
      · rw [if_pos ha] at h
        have har : a = r := by simpa using h
        subst har
        refine ⟨ha, ?_⟩
        intro t ht hts
        rcases List.mem_cons.mp ht with rfl | htl
        · exact Or.inl rfl
        · exact Or.inr ((List.pairwise_cons.mp hpw).1 t htl)
      · rw [if_neg ha] at h
        obtain ⟨hr, hall⟩ := ih (List.pairwise_cons.mp hpw).2 r h
        refine ⟨hr, ?_⟩
        intro t ht hts
        rcases List.mem_cons.mp ht with rfl | htl
        · exact absurd hts ha
        · exact hall t htl hts

/-- C5: for n candidate lists, `_get_visit_options` enumerates exactly the 2^n
n-bit strings, pairwise distinct, sorted by descending popcount; and the
first subset on which the loop succeeds (the break in `get_optimal_path`)
is a success whose popcount dominates that of every succeeding subset, so the
subset visited has maximal popcount among those yielding a valid tour. -/
theorem get_visit_options_spec (n : ℕ) (succeeds : List Bool → Bool) (hn : 1 ≤ n) :
    (get_visit_options n).length = 2 ^ n ∧
    (∀ s ∈ get_visit_options n, s.length = n) ∧
    (get_visit_options n).Nodup ∧
    (get_visit_options n).Pairwise (fun a b => popcount b ≤ popcount a) ∧
    (∀ s : List Bool, s.length = n → s ∈ get_visit_options n) ∧
    (∀ r, break_loop succeeds (get_visit_options n) = some r →
      succeeds r = true ∧
      ∀ t ∈ get_visit_options n, succeeds t = true → popcount t ≤ popcount r) := by
  have hperm := List.mergeSort_perm (visit_strings n)
    (fun a b => decide (popcount b ≤ popcount a))
  refine ⟨?_, ?_, ?_, get_visit_options_sorted n, ?_, ?_⟩
  · rw [get_visit_options, List.length_mergeSort, visit_strings_length]
  · intro s hs
    exact mem_visit_strings_length hn s (hperm.subset hs)
  · exact hperm.nodup_iff.mpr (visit_strings_nodup n)
  · intro s hs
    rw [get_visit_options, List.mem_mergeSort]
    exact mem_visit_strings_of_length hn s hs
  · intro r hr
    obtain ⟨h1, h2⟩ := break_loop_spec succeeds (fun a b => popcount b ≤ popcount a)
      (get_visit_options n) (get_visit_options_sorted n) r hr
    refine ⟨h1, fun t ht hts => ?_⟩
    rcases h2 t ht hts with rfl | hle
    · exact le_refl _
    · exact hle

/-- C5 witness: instantiation at n = 2 with a concrete success predicate. -/
theorem get_visit_options_spec_witness :
    1 ≤ 2 ∧
    ((get_visit_options 2).length = 2 ^ 2 ∧
    (∀ s ∈ get_visit_options 2, s.length = 2) ∧
    (get_visit_options 2).Nodup ∧
    (get_visit_options 2).Pairwise (fun a b => popcount b ≤ popcount a) ∧
    (∀ s : List Bool, s.length = 2 → s ∈ get_visit_options 2) ∧
    (∀ r, break_loop (fun s => s == [true, false]) (get_visit_options 2) = some r →
      (fun s : List Bool => s == [true, false]) r = true ∧
      ∀ t ∈ get_visit_options 2, (fun s : List Bool => s == [true, false]) t = true →
        popcount t ≤ popcount r)) :=
  ⟨by norm_num, get_visit_options_spec 2 (fun s => s == [true, false]) (by norm_num)⟩

/-- The solver on a single-node instance: the trivial tour through node 0 with
the matrix's (0, 0) entry as distance. -/
theorem solve_tsp_one (m : ℕ → ℕ → ℕ) : solve_tsp m 1 = ([0], m 0 0) := rfl

/-- A subset that selects at least one obstacle whose candidate list is empty
enumerates no combinations and leaves the accumulator unchanged. -/
theorem process_subset_skip (lookup : CellState → CellState → Option ℕ)
    (path_lookup : CellState → CellState → Option (List AStarNode))
    (start : CellState) (views : List (List CellState)) (bin_pos : List Bool)
    (acc : List AStarNode × ℕ)
    (hne : subset_view_positions views bin_pos ≠ [])
    (hall : ∀ l ∈ subset_view_positions views bin_pos, l = []) :
    process_subset lookup path_lookup start views bin_pos acc = acc := by
  unfold process_subset
  cases hcur : subset_view_positions views bin_pos with
  | nil => exact absurd hcur hne
  | cons l rest2 =>
      have hl : l = [] := hall l (by rw [hcur]; exact List.mem_cons_self l rest2)
      subst hl
      simp only [generate_combinations_eq]
      have hcombos : combos (([] : List CellState) :: rest2) = [] := by
        simp [combos]
      split_ifs <;> simp [hcombos]

/-- The all-zeros subset enumerates the single empty combination, whose 1 x 1
cost matrix (column 0 zeroed) solves to distance 0 with no penalties, so the
sentinel accumulator is replaced by the one-pose start path with cost 0. -/
theorem process_subset_zero (lookup : CellState → CellState → Option ℕ)
    (path_lookup : CellState → CellState → Option (List AStarNode))
    (start : CellState) (views : List (List CellState)) (bin_pos : List Bool)
    (hc : subset_view_positions views bin_pos = []) :
    process_subset lookup path_lookup start views bin_pos ([], 1000000000)
      = ([(start.x, start.y, start.direction)], 0) := by
  unfold process_subset
  rw [hc]
  rfl

/-- The enumeration always contains a subset that selects no obstacle. -/
theorem exists_zero_subset (views : List (List CellState)) :
    ∃ bp ∈ get_visit_options views.length, subset_view_positions views bp = [] := by
  cases hn : views.length with
  | zero =>
      have hvnil : views = [] := List.length_eq_zero.mp hn
      have hlen : (get_visit_options 0).length = 1 := by
        rw [get_visit_options, List.length_mergeSort, visit_strings_length]
        norm_num
      have hne : get_visit_options 0 ≠ [] := by
        intro h
        rw [h] at hlen
        exact absurd hlen (by simp)
      obtain ⟨bp, hbp⟩ := List.exists_mem_of_ne_nil _ hne
      exact ⟨bp, hbp, by simp [subset_view_positions, hvnil]⟩
  | succ m =>
      refine ⟨List.replicate (m + 1) false, ?_, ?_⟩
      · rw [get_visit_options, List.mem_mergeSort]
        exact mem_visit_strings_of_length (by omega) _ (by simp)
      · have hfil : ((List.replicate (m + 1) false).zip views).filter (fun bv => bv.1) = [] := by
          rw [List.filter_eq_nil_iff]
          rintro ⟨a, b⟩ hbv
          have h1 : a ∈ List.replicate (m + 1) false := (List.of_mem_zip hbv).1
          simp [List.eq_of_mem_replicate h1]
        simp [subset_view_positions, hfil]

/-- When no obstacle has any reachable viewing pose (every candidate list is
empty), `get_optimal_path` returns the one-pose start path with cost 0: every
subset that selects an obstacle enumerates nothing, and the all-zeros subset
yields the trivial distance-0 single-node tour, which also breaks the loop. -/
theorem get_optimal_path_all_empty (lookup : CellState → CellState → Option ℕ)
    (path_lookup : CellState → CellState → Option (List AStarNode))
    (start : CellState) (views : List (List CellState)) (hv : ∀ v ∈ views, v = []) :
    get_optimal_path lookup path_lookup start views
      = ([(start.x, start.y, start.direction)], 0) := by
  have hall : ∀ bp : List Bool, ∀ l ∈ subset_view_positions views bp, l = [] := by
    intro bp l hl
    simp only [subset_view_positions, List.mem_map, List.mem_filter] at hl
    obtain ⟨bv, ⟨hmem, -⟩, rfl⟩ := hl
    obtain ⟨a, b⟩ := bv
    exact hv b (List.of_mem_zip hmem).2
  have hloop : ∀ opts : List (List Bool),
      (∃ bp ∈ opts, subset_view_positions views bp = []) →
      subset_loop lookup path_lookup start views opts ([], 1000000000)
        = ([(start.x, start.y, start.direction)], 0) := by
    intro opts
    induction opts with
    | nil =>
        rintro ⟨bp, hmem, -⟩
        exact absurd hmem (List.not_mem_nil bp)
    | cons bp rest ih =>
        rintro ⟨bp2, hmem, hz⟩
        by_cases hc : subset_view_positions views bp = []
        · rw [subset_loop, process_subset_zero lookup path_lookup start views bp hc]
          simp
        · rw [subset_loop,
            process_subset_skip lookup path_lookup start views bp _ hc (hall bp)]
          rw [if_neg (by simp)]
          apply ih
          rcases List.mem_cons.mp hmem with rfl | h2
          · exact absurd hz hc
          · exact ⟨bp2, h2, hz⟩
  exact hloop _ (exists_zero_subset views)

/-- C1 counterexample: with one obstacle whose reachable viewing-pose list is
empty (the claim's own exemplar scenario) and empty memo tables, the source
returns the one-pose start path with cost 0, which is not the empty pose list
with the 1e9 sentinel. -/
theorem get_optimal_path_sentinel_cex :
    get_optimal_path (fun _ _ => none) (fun _ _ => none)
        (CellState.mk 1 1 Direction.north 0 0) [[]]
      = ([((1 : ℤ), (1 : ℤ), Direction.north)], 0) ∧
    ([((1 : ℤ), (1 : ℤ), Direction.north)], (0 : ℕ)) ≠ (([] : List AStarNode), 1000000000) :=
  ⟨get_optimal_path_all_empty _ _ _ _ (by simp), by simp⟩

/-- C1 amended: the NoTourFound sentinel is not produced. In the claim's
scenario - no obstacle has any reachable viewing pose, so every candidate list
is empty and no subset yields a tour through any obstacle - the all-zeros
subset, which is always enumerated, still yields the trivial single-node tour
(its 1 x 1 cost matrix has column 0 zeroed, so the TSP distance is 0 and there
are no slot penalties), and `get_optimal_path` returns ([start_pose], 0)
rather than ([], 1e9). -/
theorem get_optimal_path_no_tour (lookup : CellState → CellState → Option ℕ)
    (path_lookup : CellState → CellState → Option (List AStarNode))
    (start : CellState) (views : List (List CellState)) (hv : ∀ v ∈ views, v = []) :
    get_optimal_path lookup path_lookup start views
      = ([(start.x, start.y, start.direction)], 0) ∧
    get_optimal_path lookup path_lookup start views ≠ ([], 1000000000) := by
  have h := get_optimal_path_all_empty lookup path_lookup start views hv
  refine ⟨h, ?_⟩
  rw [h]
  simp

/-- C1 amended witness: the exemplar scenario of one obstacle with no
reachable viewing pose. -/
theorem get_optimal_path_no_tour_witness :
    (∀ v ∈ [([] : List CellState)], v = []) ∧
    (get_optimal_path (fun _ _ => none) (fun _ _ => none)
        (CellState.mk 1 1 Direction.north 0 0) [[]]
        = ([((1 : ℤ), (1 : ℤ), Direction.north)], 0) ∧
      get_optimal_path (fun _ _ => none) (fun _ _ => none)
        (CellState.mk 1 1 Direction.north 0 0) [[]] ≠ ([], 1000000000)) :=
  ⟨by simp, get_optimal_path_no_tour (fun _ _ => none) (fun _ _ => none)
    (CellState.mk 1 1 Direction.north 0 0) [[]] (by simp)⟩

end MdpAlgo
